import Mathlib

/-!
Verification development for the wasm0-circuits bus-mapping engine.

The definitions below are a shallow embedding of the repository's
witness-generation layer: the per-opcode translation of execution-trace
steps into Read/Write ("RW") operations.  Handler bodies are translated
from the Rust sources under `src/bus-mapping/src/{evm,wasm}/opcodes/`
(sha3.rs, sstore.rs, calldataload.rs, extcodesize.rs) and the witness
step accessor from `src/zkevm-circuits/src/witness/step.rs`.  The state
primitives (RW-counter allocation, operation containers) and the
reversion engine live in `circuit_input_builder.rs` / `operation.rs`,
which are not part of the provided sources; those are modelled from the
specification as noted on each definition.
-/

namespace Wasm0

/-- A byte value, as traced memory holds `u8` cells. -/
abbrev Byte := Fin 256

/-- Truncate a natural number to a byte (Rust `as u8` / `% 256`). -/
def byteOfNat (n : Nat) : Byte := ⟨n % 256, Nat.mod_lt _ (by decide)⟩

/-- Read vs. Write tag of an operation (operation.rs `RW`). -/
inductive RW where
  | read
  | write
deriving DecidableEq

/-- Call-context fields read by the four embedded handlers
(operation.rs `CallContextField`, restricted to the fields these
handlers use). -/
inductive CallContextField where
  | TxId
  | IsStatic
  | RwCounterEndOfReversion
  | IsPersistent
  | CalleeAddress
  | CallerId
  | CallDataLength
  | CallDataOffset
deriving DecidableEq

/-- Payload of one operation, per kind (spec section 3 data model /
operation.rs).  Key fields and values are kept as naturals; addresses
are 160-bit account addresses, words are 256-bit, both unbounded here
because no handler arithmetic overflows them. -/
inductive OpData where
  | stack (callId : Nat) (stackAddr : Nat) (value : Nat)
  | memory (callId : Nat) (addr : Nat) (byte : Byte)
  | storage (address : Nat) (key : Nat) (value : Nat) (valuePrev : Nat)
      (txId : Nat) (committedValue : Nat)
  | callContext (callId : Nat) (field : CallContextField) (value : Nat)
  | txAccessListAccount (txId : Nat) (address : Nat)
      (isWarm : Bool) (isWarmPrev : Bool)
  | txAccessListAccountStorage (txId : Nat) (address : Nat) (key : Nat)
      (isWarm : Bool) (isWarmPrev : Bool)
  | txRefund (txId : Nat) (value : Nat) (valuePrev : Nat)
deriving DecidableEq

/-- One logged operation: its Read/Write tag, the RW-counter value it
consumed at creation, and its payload. -/
structure Operation where
  rw : RW
  rwc : Nat
  data : OpData
deriving DecidableEq

/-- Modelled from the spec: the Builder Context's mutable core — the RW
Counter (spec section 3: "scalar, starts at 1, strictly increases by 1
per created operation") together with the creation-order log of all
operations appended across every Operation Container kind.  The
container code (`circuit_input_builder.rs`) is not under the provided
sources. -/
structure BuilderSt where
  rwc : Nat
  ops : List Operation

/-- Modelled from the spec: the initial Builder Context state for one
block build; the RW Counter starts at 1 and no operation exists yet. -/
def BuilderSt.init : BuilderSt := ⟨1, []⟩

/-- Modelled from the spec (section 4.1): every state primitive
atomically allocates the next RW Counter value and appends a new
Operation to the matching container; this is the common append step
each primitive performs. -/
def BuilderSt.pushOp (s : BuilderSt) (rw : RW) (d : OpData) : BuilderSt :=
  ⟨s.rwc + 1, s.ops ++ [⟨rw, s.rwc, d⟩]⟩

/-- Modelled from the spec: running a whole block build is folding the
primitive append step over the sequence of operations the handlers
create, in creation order. -/
def BuilderSt.applyAll (l : List (RW × OpData)) : BuilderSt :=
  l.foldl (fun s p => s.pushOp p.1 p.2) BuilderSt.init

/-- Assign consecutive RW-counter values, starting at `r`, to a list of
operations in creation order.  This is the pure form of the counter
allocation the Builder Context performs one primitive call at a time. -/
def assign (r : Nat) : List (RW × OpData) → List Operation
  | [] => []
  | p :: t => ⟨p.1, r, p.2⟩ :: assign (r + 1) t

theorem assign_length (r : Nat) (l : List (RW × OpData)) :
    (assign r l).length = l.length := by
  induction l generalizing r with
  | nil => rfl
  | cons p t ih => simp [assign, ih]

theorem assign_append (r : Nat) (l₁ l₂ : List (RW × OpData)) :
    assign r (l₁ ++ l₂) = assign r l₁ ++ assign (r + l₁.length) l₂ := by
  induction l₁ generalizing r with
  | nil => simp [assign]
  | cons p t ih =>
      calc assign r (p :: t ++ l₂)
          = ⟨p.1, r, p.2⟩ :: assign (r + 1) (t ++ l₂) := rfl
        _ = ⟨p.1, r, p.2⟩ ::
              (assign (r + 1) t ++ assign (r + 1 + t.length) l₂) := by rw [ih]
        _ = assign r (p :: t) ++ assign (r + (p :: t).length) l₂ := by
              have h : r + 1 + t.length = r + (p :: t).length := by
                simp only [List.length_cons]; omega
              rw [h]; rfl

theorem assign_rwc_bounds (r : Nat) (l : List (RW × OpData)) :
    ∀ o ∈ assign r l, r ≤ o.rwc ∧ o.rwc < r + l.length := by
  induction l generalizing r with
  | nil => intro o h; simp [assign] at h
  | cons p t ih =>
      intro o h
      simp only [assign, List.mem_cons] at h
      rcases h with h | h
      · subst h
        refine ⟨le_refl r, ?_⟩
        show r < r + (p :: t).length
        simp only [List.length_cons]
        omega
      · have hb := ih (r + 1) o h
        refine ⟨by omega, ?_⟩
        simp only [List.length_cons]
        omega

theorem assign_map_rwc (r : Nat) (l : List (RW × OpData)) :
    (assign r l).map Operation.rwc = List.range' r l.length := by
  induction l generalizing r with
  | nil => rfl
  | cons p t ih => simp [assign, List.range'_succ, ih]

theorem applyAll_eq_assign (l : List (RW × OpData)) :
    (BuilderSt.applyAll l).ops = assign 1 l ∧
      (BuilderSt.applyAll l).rwc = 1 + l.length := by
  suffices h : ∀ (s : BuilderSt) (r : Nat), s.rwc = r →
      (l.foldl (fun s p => s.pushOp p.1 p.2) s).ops = s.ops ++ assign r l ∧
      (l.foldl (fun s p => s.pushOp p.1 p.2) s).rwc = r + l.length by
    have := h BuilderSt.init 1 rfl
    simpa [BuilderSt.applyAll, BuilderSt.init] using this
  induction l with
  | nil => intro s r hr; simp [assign, hr]
  | cons p t ih =>
      intro s r hr
      simp only [List.foldl_cons]
      have := ih (s.pushOp p.1 p.2) (r + 1) (by simp [BuilderSt.pushOp, hr])
      rcases this with ⟨h1, h2⟩
      refine ⟨?_, by simp [h2, List.length_cons]; omega⟩
      rw [h1]
      simp [BuilderSt.pushOp, assign, hr]

/-- **C1.** For every completed block build, the RW Counter values
assigned to operations across all Operation Container kinds, taken in
creation order, form exactly the sequence 1, 2, …, N: the counter
starts at 1 and increases by exactly 1 per created operation. -/
theorem rw_counter_values_are_one_to_N (l : List (RW × OpData)) :
    ((BuilderSt.applyAll l).ops.map Operation.rwc) =
      List.range' 1 l.length := by
  rw [(applyAll_eq_assign l).1, assign_map_rwc]

section WitnessStep

/-- Modelled from the spec: `N_BYTES_U64`, the byte width of a `u64`
(the constant lives in `zkevm-circuits/src/evm_circuit/param.rs`, which
is not under the provided sources); the claim's sources measure memory
in 8-byte words. -/
def N_BYTES_U64 : Nat := 8

/-- `ExecStep::memory_word_size` from
`src/zkevm-circuits/src/witness/step.rs` lines 74-86: divide the byte
size by `N_BYTES_U64` and add one when a partial trailing word
remains.  `memory_size` is a `u64`; the computation never overflows, so
naturals model it exactly. -/
def memory_word_size (memory_size : Nat) : Nat :=
  let word_count := memory_size / N_BYTES_U64
  if word_count * N_BYTES_U64 < memory_size then word_count + 1 else word_count

/-- **C10.** For every witness ExecStep, `memory_word_size()` returns
`ceil(memory_size / 8)`: memory is measured in 8-byte words, the size
need not be a multiple of a 32-byte EVM word, and any partial trailing
word counts as one full word. -/
theorem memory_word_size_is_ceil_div_eight (m : Nat) :
    memory_word_size m = (m + 7) / 8 := by
  simp only [memory_word_size, N_BYTES_U64]
  rcases Nat.lt_or_ge (m / 8 * 8) m with h | h
  · rw [if_pos h]
    omega
  · rw [if_neg (by omega)]
    omega

end WitnessStep

/-! ## Handler infrastructure

Shared helpers mirrored from the eth-types primitives the four handlers
call: geth-stack accessors, byte-addressed memory reads, word
(de)serialisation and the integer conversions (`as_usize`, `low_u64`,
`MemoryAddress::try_from`) with their failure modes. -/

/-- Failure outcomes of a handler invocation.  `invalidGethExecTrace`
carries the message of `Error::InvalidGethExecTrace`;
`invalidStackPointer` models the error a failing `Stack::nth_last`
returns; `wordToMemAddr` models a failing `MemoryAddress::try_from`;
`rustPanic` models an aborting Rust panic (out-of-bounds slice
indexing, `as_usize` overflow) — distinct from returning an `Err`
value. -/
inductive Err where
  | invalidGethExecTrace (msg : String)
  | invalidStackPointer
  | wordToMemAddr
  | rustPanic
deriving DecidableEq

instance exceptDecEq {ε α : Type} [DecidableEq ε] [DecidableEq α] :
    DecidableEq (Except ε α) := fun a b =>
  match a, b with
  | .ok x, .ok y =>
      if h : x = y then .isTrue (by rw [h]) else .isFalse (fun hc => h (Except.ok.inj hc))
  | .error x, .error y =>
      if h : x = y then .isTrue (by rw [h]) else .isFalse (fun hc => h (Except.error.inj hc))
  | .ok _, .error _ => .isFalse (fun hc => Except.noConfusion hc)
  | .error _, .ok _ => .isFalse (fun hc => Except.noConfusion hc)

/-- `Stack::nth_last(i)`: the i-th word from the top of the geth stack
(the stack is a list with its top first here), an error when the stack
is too short. -/
def nthLast (stack : List Nat) (i : Nat) : Except Err Nat :=
  match stack.get? i with
  | some v => .ok v
  | none => .error .invalidStackPointer

/-- `Stack::nth_last_filled(i)`: the stack address of the i-th word
from the top, `1024 - len + i`. -/
def nthLastFilled (stack : List Nat) (i : Nat) : Nat :=
  1024 - stack.length + i

/-- Truncation to 64 bits (`low_u64` / `as_u64` on a word). -/
def low64 (n : Nat) : Nat := n % 2 ^ 64

/-- `as_usize` on a 64-bit target: the value itself when it fits,
otherwise a Rust panic. -/
def asUsize (n : Nat) : Except Err Nat :=
  if n < 2 ^ 64 then .ok n else .error .rustPanic

/-- `MemoryAddress::try_from(word)`: ok when the word fits a memory
address, an error otherwise. -/
def memAddrTryFrom (n : Nat) : Except Err Nat :=
  if n < 2 ^ 64 then .ok n else .error .wordToMemAddr

/-- Read one byte of byte-addressed memory; absent cells read as 0 (the
traced memory is zero-extended). -/
def readByte (mem : List Byte) (a : Nat) : Byte := mem.getD a 0

/-- `Memory::read_chunk(offset, size)`: the `size` bytes starting at
`offset`, zero-extended past the end of the buffer. -/
def readChunk (mem : List Byte) (offset size : Nat) : List Byte :=
  (List.range size).map (fun i => readByte mem (offset + i))

/-- Big-endian value of a byte string. -/
def beToNat (bytes : List Byte) : Nat :=
  bytes.foldl (fun acc b => acc * 256 + b.val) 0

/-- `Memory::read_u256(addr)`: the big-endian word formed by the 32
bytes at `addr` (the address is used as a 64-bit offset). -/
def readU256 (mem : List Byte) (addr : Nat) : Nat :=
  beToNat (readChunk mem (low64 addr) 32)

/-- `to_be_bytes` of a 256-bit word: its 32 big-endian bytes. -/
def beBytes32 (v : Nat) : List Byte :=
  (List.range 32).map (fun i => byteOfNat (v / 256 ^ (31 - i)))

/-- `Memory::extend_at_least(n)`: zero-pad the buffer to length at
least `n`. -/
def extendAtLeast (mem : List Byte) (n : Nat) : List Byte :=
  if mem.length < n then mem ++ List.replicate (n - mem.length) 0 else mem

/-- The per-call builder-context data the embedded handlers consult
(fields of `Call` and the transaction id from `tx_ctx`). -/
structure CallInfo where
  callId : Nat
  callerId : Nat
  isRoot : Bool
  isStatic : Bool
  isPersistent : Bool
  rwCounterEndOfReversion : Nat
  address : Nat
  callDataLength : Nat
  callDataOffset : Nat
deriving DecidableEq

/-- Source/destination kinds of a copy event used by the SHA3 handler
(`CopyDataType`). -/
inductive CopyDataType where
  | memory
  | rlcAcc
deriving DecidableEq

/-- A recorded byte-range copy (`CopyEvent`); ids are call ids here as
in the SHA3 handler. -/
structure CopyEvent where
  srcAddr : Nat
  srcAddrEnd : Nat
  srcType : CopyDataType
  srcId : Nat
  dstAddr : Nat
  dstType : CopyDataType
  dstId : Nat
  logId : Option Nat
  rwCounterStart : Nat
  bytes : List (Byte × Bool)
deriving DecidableEq

/-- `state.memory_read_n(addr, bytes)`: one memory-read operation per
byte, at consecutive addresses, in order. -/
def memoryReadNOps (callId : Nat) (addr : Nat) : List Byte → List (RW × OpData)
  | [] => []
  | b :: t => (RW.read, OpData.memory callId addr b) :: memoryReadNOps callId (addr + 1) t

/-- `state.memory_write_n(addr, bytes)` (and the per-byte
`memory_write` loops): one memory-write operation per byte, at
consecutive addresses, in order. -/
def memoryWriteNOps (callId : Nat) (addr : Nat) : List Byte → List (RW × OpData)
  | [] => []
  | b :: t => (RW.write, OpData.memory callId addr b) :: memoryWriteNOps callId (addr + 1) t

/-- Whether an operation payload is a memory operation. -/
def isMemOp : OpData → Bool
  | .memory _ _ _ => true
  | _ => false

theorem memoryReadNOps_length (c a : Nat) (bs : List Byte) :
    (memoryReadNOps c a bs).length = bs.length := by
  induction bs generalizing a with
  | nil => rfl
  | cons b t ih => simp [memoryReadNOps, ih]

theorem memoryWriteNOps_length (c a : Nat) (bs : List Byte) :
    (memoryWriteNOps c a bs).length = bs.length := by
  induction bs generalizing a with
  | nil => rfl
  | cons b t ih => simp [memoryWriteNOps, ih]

theorem memoryReadNOps_mem (c a : Nat) (bs : List Byte) :
    ∀ p ∈ memoryReadNOps c a bs, p.1 = RW.read ∧ isMemOp p.2 = true := by
  induction bs generalizing a with
  | nil => intro p h; simp [memoryReadNOps] at h
  | cons b t ih =>
      intro p h
      simp only [memoryReadNOps, List.mem_cons] at h
      rcases h with h | h
      · subst h; exact ⟨rfl, rfl⟩
      · exact ih (a + 1) p h

theorem memoryWriteNOps_mem (c a : Nat) (bs : List Byte) :
    ∀ p ∈ memoryWriteNOps c a bs, p.1 = RW.write ∧ isMemOp p.2 = true := by
  induction bs generalizing a with
  | nil => intro p h; simp [memoryWriteNOps] at h
  | cons b t ih =>
      intro p h
      simp only [memoryWriteNOps, List.mem_cons] at h
      rcases h with h | h
      · subst h; exact ⟨rfl, rfl⟩
      · exact ih (a + 1) p h

theorem memoryReadNOps_eq_range_map (c a : Nat) (bs : List Byte) :
    memoryReadNOps c a bs =
      (List.range bs.length).map
        (fun i => (RW.read, OpData.memory c (a + i) (bs.getD i 0))) := by
  induction bs generalizing a with
  | nil => rfl
  | cons b t ih =>
      simp only [memoryReadNOps, List.length_cons, List.range_succ_eq_map,
        List.map_cons, List.map_map]
      have htail : memoryReadNOps c (a + 1) t =
          List.map ((fun i =>
            (RW.read, OpData.memory c (a + i) ((b :: t).getD i 0))) ∘ Nat.succ)
            (List.range t.length) := by
        rw [ih (a + 1)]
        apply List.map_congr_left
        intro i _
        simp only [Function.comp_apply, Nat.succ_eq_add_one, List.getD_cons_succ]
        have h : a + 1 + i = a + (i + 1) := by omega
        rw [h]
      rw [htail]
      simp

theorem ok_bind {α β : Type} (a : α) (f : α → Except Err β) :
    Bind.bind (Except.ok a) f = f a := rfl

theorem pure_bindE {α β : Type} (a : α) (f : α → Except Err β) :
    Bind.bind (pure a : Except Err α) f = f a := rfl

theorem readChunk_zero (mem : List Byte) (a : Nat) : readChunk mem a 0 = [] := rfl

theorem memoryReadNOps_nil (c a : Nat) : memoryReadNOps c a [] = [] := rfl

theorem low64_zero : low64 0 = 0 := rfl

theorem low64_lt (n : Nat) : low64 n < 2 ^ 64 := Nat.mod_lt _ (by decide)

theorem nthLast_cons_zero (v : Nat) (t : List Nat) : nthLast (v :: t) 0 = .ok v := rfl

theorem nthLast_cons_succ (v : Nat) (t : List Nat) (i : Nat) :
    nthLast (v :: t) (i + 1) = nthLast t i := rfl

/-! ## SHA3 handler (src/bus-mapping/src/wasm/opcodes/sha3.rs) -/

/-- What one SHA3 handler invocation returns: the operations it pushed
(in creation order), the copy events it appended to the block's log,
the call context's memory after the handler, and the entries appended
to `block.sha3_inputs`. -/
structure Sha3Out where
  ops : List (RW × OpData)
  copies : List CopyEvent
  ctxMem : List Byte
  sha3Inputs : List (List Byte)
deriving DecidableEq

/-- `Sha3::gen_associated_ops` (sha3.rs lines 16-88).  Inputs: `keccak`
is the external keccak-256 function (`ethers_core::utils::keccak256`,
kept as a parameter since it is an external collaborator; it always
yields 32 bytes), `stack`/`gmem0` are the pre-state step's stack and
global memory, `gmem1` the lookahead step's global memory (read only
into `expected_sha3`, the debug cross-check, which does not influence
the output), `ctxMem` the builder call context's memory, and `rwc0` the
block RW counter at handler entry (used for the copy event's
`rw_counter_start`).  The memory-read addresses use `low64 offset`
where the source uses `offset.as_usize()`: the reads exist only when
`size > 0`, and on that path `asUsize offset` has already succeeded, so
the two coincide. -/
def sha3Ops (keccak : List Byte → Fin 32 → Byte) (call : CallInfo)
    (stack : List Nat) (gmem0 gmem1 ctxMem : List Byte) (rwc0 : Nat) :
    Except Err Sha3Out := do
  let dest ← nthLast stack 0
  let size ← nthLast stack 1
  let offset ← nthLast stack 2
  let _expectedSha3 := readU256 gmem1 dest
  let ctxMemNew ←
    if 0 < size then do
      let oU ← asUsize offset
      let sU ← asUsize size
      pure (extendAtLeast ctxMem (oU + sU))
    else pure ctxMem
  let sU ← asUsize size
  let memory := readChunk gmem0 (low64 offset) sU
  let sha3 : List Byte := List.ofFn (keccak memory)
  let stackReads : List (RW × OpData) :=
    [(RW.read, OpData.stack call.callId (nthLastFilled stack 0) dest),
     (RW.read, OpData.stack call.callId (nthLastFilled stack 1) size),
     (RW.read, OpData.stack call.callId (nthLastFilled stack 2) offset)]
  let digestWrites := memoryWriteNOps call.callId (low64 dest) sha3
  let reads := memoryReadNOps call.callId (low64 offset) memory
  let ev : CopyEvent :=
    { srcAddr := low64 offset
      srcAddrEnd := if low64 offset + low64 size < 2 ^ 64
        then low64 offset + low64 size else 2 ^ 64 - 1
      srcType := .memory
      srcId := call.callId
      dstAddr := 0
      dstType := .rlcAcc
      dstId := call.callId
      logId := none
      rwCounterStart := rwc0 + stackReads.length + digestWrites.length
      bytes := memory.map (fun b => (b, false)) }
  .ok { ops := stackReads ++ digestWrites ++ reads
        copies := [ev]
        ctxMem := ctxMemNew
        sha3Inputs := [memory] }

/-- Evaluation of the SHA3 handler on a well-formed window with a
positive size operand. -/
theorem sha3Ops_run_pos (keccak : List Byte → Fin 32 → Byte) (call : CallInfo)
    (d s o : Nat) (rest : List Nat) (gmem0 gmem1 ctxMem : List Byte) (rwc0 : Nat)
    (hpos : 0 < s) (hs : s < 2 ^ 64) (ho : o < 2 ^ 64) :
    sha3Ops keccak call (d :: s :: o :: rest) gmem0 gmem1 ctxMem rwc0 =
      .ok ⟨[(RW.read, OpData.stack call.callId (nthLastFilled (d :: s :: o :: rest) 0) d),
            (RW.read, OpData.stack call.callId (nthLastFilled (d :: s :: o :: rest) 1) s),
            (RW.read, OpData.stack call.callId (nthLastFilled (d :: s :: o :: rest) 2) o)]
           ++ memoryWriteNOps call.callId (low64 d)
               (List.ofFn (keccak (readChunk gmem0 o s)))
           ++ memoryReadNOps call.callId o (readChunk gmem0 o s),
           [⟨o, if o + s < 2 ^ 64 then o + s else 2 ^ 64 - 1, .memory, call.callId,
             0, .rlcAcc, call.callId, none, rwc0 + 3 + 32,
             (readChunk gmem0 o s).map (fun b => (b, false))⟩],
           extendAtLeast ctxMem (o + s),
           [readChunk gmem0 o s]⟩ := by
  have ho' : low64 o = o := Nat.mod_eq_of_lt ho
  have hs' : low64 s = s := Nat.mod_eq_of_lt hs
  simp only [sha3Ops, nthLast_cons_zero, nthLast_cons_succ, ok_bind, pure_bindE,
    asUsize, if_pos hpos, if_pos hs, if_pos ho, ho', hs']
  rfl

/-- Evaluation of the SHA3 handler when the size operand is zero: no
bound on the offset or destination operands is needed. -/
theorem sha3Ops_run_zero (keccak : List Byte → Fin 32 → Byte) (call : CallInfo)
    (d o : Nat) (rest : List Nat) (gmem0 gmem1 ctxMem : List Byte) (rwc0 : Nat) :
    sha3Ops keccak call (d :: 0 :: o :: rest) gmem0 gmem1 ctxMem rwc0 =
      .ok ⟨[(RW.read, OpData.stack call.callId (nthLastFilled (d :: 0 :: o :: rest) 0) d),
            (RW.read, OpData.stack call.callId (nthLastFilled (d :: 0 :: o :: rest) 1) 0),
            (RW.read, OpData.stack call.callId (nthLastFilled (d :: 0 :: o :: rest) 2) o)]
           ++ memoryWriteNOps call.callId (low64 d) (List.ofFn (keccak [])),
           [⟨low64 o, low64 o, .memory, call.callId, 0, .rlcAcc, call.callId, none,
             rwc0 + 3 + 32, []⟩],
           ctxMem,
           [[]]⟩ := by
  simp only [sha3Ops, nthLast_cons_zero, nthLast_cons_succ, ok_bind, pure_bindE,
    asUsize, if_neg (lt_irrefl 0), if_pos (by decide : (0:Nat) < 2 ^ 64),
    readChunk_zero, memoryReadNOps_nil, List.append_nil, low64_zero, Nat.add_zero,
    if_pos (low64_lt o), List.map_nil]
  rfl

theorem readChunk_getD (mem : List Byte) (o s i : Nat) (h : i < s) :
    (readChunk mem o s).getD i 0 = readByte mem (o + i) := by
  simp [readChunk, List.getD_eq_getElem?_getD, List.getElem?_map,
    List.getElem?_range h]

theorem readChunk_length (mem : List Byte) (o s : Nat) :
    (readChunk mem o s).length = s := by
  simp [readChunk]

/-- **C7.** For every SHA3 invocation with size N > 0 over the memory
window [offset, offset+N): exactly one CopyEvent is emitted, its bytes
list has exactly N entries equal to the zero-extended memory window
with every entry flagged is_code = false, and the step records exactly
N Read MemoryOps over that window plus a 32-byte group of Write
MemoryOps for the digest (and no memory operation outside those two
groups). -/
theorem sha3_copy_event_and_memory_ops (keccak : List Byte → Fin 32 → Byte)
    (call : CallInfo) (d s o : Nat) (rest : List Nat)
    (gmem0 gmem1 ctxMem : List Byte) (rwc0 : Nat) (out : Sha3Out)
    (hpos : 0 < s) (hs : s < 2 ^ 64) (ho : o < 2 ^ 64)
    (hrun : sha3Ops keccak call (d :: s :: o :: rest) gmem0 gmem1 ctxMem rwc0 =
      .ok out) :
    (∃ ev, out.copies = [ev]
      ∧ ev.bytes.length = s
      ∧ ev.bytes.map Prod.fst = readChunk gmem0 o s
      ∧ ∀ p ∈ ev.bytes, p.2 = false)
    ∧ (∃ A B C : List (RW × OpData), out.ops = A ++ B ++ C
      ∧ (∀ p ∈ A, isMemOp p.2 = false)
      ∧ B.length = 32
      ∧ (∀ p ∈ B, p.1 = RW.write ∧ isMemOp p.2 = true)
      ∧ C = (List.range s).map (fun i =>
          (RW.read, OpData.memory call.callId (o + i) (readByte gmem0 (o + i))))) := by
  rw [sha3Ops_run_pos keccak call d s o rest gmem0 gmem1 ctxMem rwc0 hpos hs ho]
    at hrun
  injection hrun with hout
  subst hout
  constructor
  · refine ⟨_, rfl, ?_, ?_, ?_⟩
    · simp [readChunk]
    · rw [List.map_map]
      have hcomp : (Prod.fst ∘ fun b : Byte => (b, false)) = id := rfl
      rw [hcomp, List.map_id]
    · intro p hp
      simp only [List.mem_map] at hp
      obtain ⟨b, _, rfl⟩ := hp
      rfl
  · refine ⟨_, _, _, rfl, ?_, ?_, ?_, ?_⟩
    · intro p hp
      simp only [List.mem_cons, List.not_mem_nil, or_false] at hp
      rcases hp with rfl | rfl | rfl <;> rfl
    · rw [memoryWriteNOps_length, List.length_ofFn]
    · exact memoryWriteNOps_mem _ _ _
    · rw [memoryReadNOps_eq_range_map, readChunk_length]
      apply List.map_congr_left
      intro i hi
      rw [List.mem_range] at hi
      rw [readChunk_getD gmem0 o s i hi]

/-- **C9.** For every SHA3 invocation whose size operand is 0: the
handler does not extend the call context's memory regardless of the
offset operand, emits zero memory-read operations, still memory-writes
the 32-byte keccak-256 digest of the empty byte string at the
destination, and emits exactly one CopyEvent whose bytes list is
empty. -/
theorem sha3_size_zero_behaviour (keccak : List Byte → Fin 32 → Byte)
    (call : CallInfo) (d o : Nat) (rest : List Nat)
    (gmem0 gmem1 ctxMem : List Byte) (rwc0 : Nat) (out : Sha3Out)
    (hrun : sha3Ops keccak call (d :: 0 :: o :: rest) gmem0 gmem1 ctxMem rwc0 =
      .ok out) :
    out.ctxMem = ctxMem
    ∧ out.ops =
        [(RW.read, OpData.stack call.callId (nthLastFilled (d :: 0 :: o :: rest) 0) d),
         (RW.read, OpData.stack call.callId (nthLastFilled (d :: 0 :: o :: rest) 1) 0),
         (RW.read, OpData.stack call.callId (nthLastFilled (d :: 0 :: o :: rest) 2) o)]
        ++ memoryWriteNOps call.callId (low64 d) (List.ofFn (keccak []))
    ∧ (memoryWriteNOps call.callId (low64 d) (List.ofFn (keccak []))).length = 32
    ∧ (∀ p ∈ out.ops, p.1 = RW.read → isMemOp p.2 = false)
    ∧ ∃ ev, out.copies = [ev] ∧ ev.bytes = [] := by
  rw [sha3Ops_run_zero keccak call d o rest gmem0 gmem1 ctxMem rwc0] at hrun
  injection hrun with hout
  subst hout
  refine ⟨rfl, rfl, ?_, ?_, _, rfl, rfl⟩
  · rw [memoryWriteNOps_length, List.length_ofFn]
  · intro p hp hread
    simp only [List.mem_append, List.mem_cons, List.not_mem_nil, or_false] at hp
    rcases hp with (rfl | rfl | rfl) | hp
    · rfl
    · rfl
    · rfl
    · exact absurd ((memoryWriteNOps_mem _ _ _ p hp).1) (by rw [hread]; decide)

/-- Is this logged operation a memory read? -/
def isMemReadOp : Operation → Bool
  | ⟨RW.read, _, OpData.memory _ _ _⟩ => true
  | _ => false

/-- Is this logged operation a memory write? -/
def isMemWriteOp : Operation → Bool
  | ⟨RW.write, _, OpData.memory _ _ _⟩ => true
  | _ => false

/-- The ordering property C4 asserts of one SHA3 step's operations once
RW-counter values are assigned: every memory read precedes every
memory (digest) write in the instruction list and receives a smaller
RW-counter value. -/
def readsBeforeDigestWrite (l : List Operation) : Prop :=
  ∀ i j : Fin l.length,
    isMemReadOp (l.get i) = true → isMemWriteOp (l.get j) = true →
      (i : Nat) < (j : Nat) ∧ (l.get i).rwc < (l.get j).rwc

instance readsBeforeDigestWriteDec (l : List Operation) :
    Decidable (readsBeforeDigestWrite l) :=
  Fintype.decidableForallFintype

/-- A concrete stand-in for the external keccak-256 function, used only
to evaluate the handlers at concrete inputs (their operation structure
does not depend on the digest values). -/
def kec0 : List Byte → Fin 32 → Byte := fun _ _ => 0

/-- A concrete root call context used for concrete evaluations. -/
def call0 : CallInfo := ⟨1, 0, true, false, true, 0, 0, 0, 0⟩

/-- Extract the output of a SHA3 handler run, defaulting on error. -/
def getSha3Out (r : Except Err Sha3Out) : Sha3Out :=
  match r with
  | .ok o => o
  | .error _ => ⟨[], [], [], []⟩

/-- **C4** (counterexample). At a concrete SHA3 invocation (dest 0,
size 1, offset 0) the handler succeeds, yet the claimed
reads-before-digest-write ordering is false for the operations it
records: the digest memory-writes are emitted before the memory read
and receive smaller RW-counter values. -/
theorem sha3_reads_before_digest_write_cex :
    (sha3Ops kec0 call0 [0, 1, 0] [] [] [] 1).isOk = true
    ∧ ¬ readsBeforeDigestWrite
        (assign 1 (getSha3Out (sha3Ops kec0 call0 [0, 1, 0] [] [] [] 1)).ops) := by
  constructor
  · decide
  · decide

/-- **C4** (amended). For every SHA3 handler invocation with positive
size N, the operations are emitted as: the three stack reads, then the
32-byte digest memory-write group, then the N memory reads over the
input window — so every memory read follows the digest write in the
instruction list and receives a larger RW-counter value. -/
theorem sha3_stack_reads_then_digest_write_then_reads
    (keccak : List Byte → Fin 32 → Byte) (call : CallInfo) (d s o : Nat)
    (rest : List Nat) (gmem0 gmem1 ctxMem : List Byte) (rwc0 : Nat) (out : Sha3Out)
    (hpos : 0 < s) (hs : s < 2 ^ 64) (ho : o < 2 ^ 64)
    (hrun : sha3Ops keccak call (d :: s :: o :: rest) gmem0 gmem1 ctxMem rwc0 =
      .ok out) :
    ∃ B C : List (RW × OpData),
      out.ops =
        [(RW.read, OpData.stack call.callId (nthLastFilled (d :: s :: o :: rest) 0) d),
         (RW.read, OpData.stack call.callId (nthLastFilled (d :: s :: o :: rest) 1) s),
         (RW.read, OpData.stack call.callId (nthLastFilled (d :: s :: o :: rest) 2) o)]
        ++ B ++ C
      ∧ B.length = 32
      ∧ (∀ p ∈ B, p.1 = RW.write ∧ isMemOp p.2 = true)
      ∧ C.length = s
      ∧ (∀ p ∈ C, p.1 = RW.read ∧ isMemOp p.2 = true)
      ∧ ∀ x ∈ assign (rwc0 + 3) B, ∀ y ∈ assign (rwc0 + 35) C, x.rwc < y.rwc := by
  rw [sha3Ops_run_pos keccak call d s o rest gmem0 gmem1 ctxMem rwc0 hpos hs ho]
    at hrun
  injection hrun with hout
  subst hout
  have hlenB : (memoryWriteNOps call.callId (low64 d)
      (List.ofFn (keccak (readChunk gmem0 o s)))).length = 32 := by
    rw [memoryWriteNOps_length, List.length_ofFn]
  refine ⟨_, _, rfl, hlenB, memoryWriteNOps_mem _ _ _, ?_,
    memoryReadNOps_mem _ _ _, ?_⟩
  · rw [memoryReadNOps_length, readChunk_length]
  · intro x hx y hy
    have hbx := assign_rwc_bounds _ _ x hx
    have hby := assign_rwc_bounds _ _ y hy
    rw [hlenB] at hbx
    omega

/-- Witness for the amended C4 theorem at a concrete invocation. -/
theorem sha3_stack_reads_then_digest_write_then_reads_witness :
    ∃ B C : List (RW × OpData),
      (getSha3Out (sha3Ops kec0 call0 [0, 1, 0] [] [] [] 1)).ops =
        [(RW.read, OpData.stack call0.callId (nthLastFilled [0, 1, 0] 0) 0),
         (RW.read, OpData.stack call0.callId (nthLastFilled [0, 1, 0] 1) 1),
         (RW.read, OpData.stack call0.callId (nthLastFilled [0, 1, 0] 2) 0)]
        ++ B ++ C
      ∧ B.length = 32
      ∧ (∀ p ∈ B, p.1 = RW.write ∧ isMemOp p.2 = true)
      ∧ C.length = 1
      ∧ (∀ p ∈ C, p.1 = RW.read ∧ isMemOp p.2 = true)
      ∧ ∀ x ∈ assign (1 + 3) B, ∀ y ∈ assign (1 + 35) C, x.rwc < y.rwc :=
  sha3_stack_reads_then_digest_write_then_reads kec0 call0 0 1 0 [] [] [] [] 1
    (getSha3Out (sha3Ops kec0 call0 [0, 1, 0] [] [] [] 1))
    (by decide) (by decide) (by decide) rfl

/-- Witness for the C7 theorem at a concrete invocation. -/
theorem sha3_copy_event_and_memory_ops_witness :
    (∃ ev, (getSha3Out (sha3Ops kec0 call0 [0, 1, 0] [] [] [] 1)).copies = [ev]
      ∧ ev.bytes.length = 1
      ∧ ev.bytes.map Prod.fst = readChunk [] 0 1
      ∧ ∀ p ∈ ev.bytes, p.2 = false)
    ∧ (∃ A B C : List (RW × OpData),
        (getSha3Out (sha3Ops kec0 call0 [0, 1, 0] [] [] [] 1)).ops = A ++ B ++ C
      ∧ (∀ p ∈ A, isMemOp p.2 = false)
      ∧ B.length = 32
      ∧ (∀ p ∈ B, p.1 = RW.write ∧ isMemOp p.2 = true)
      ∧ C = (List.range 1).map (fun i =>
          (RW.read, OpData.memory call0.callId (0 + i) (readByte [] (0 + i))))) :=
  sha3_copy_event_and_memory_ops kec0 call0 0 1 0 [] [] [] [] 1
    (getSha3Out (sha3Ops kec0 call0 [0, 1, 0] [] [] [] 1))
    (by decide) (by decide) (by decide) rfl

/-- Witness for the C9 theorem at a concrete invocation with a nonzero
offset operand. -/
theorem sha3_size_zero_behaviour_witness :
    (getSha3Out (sha3Ops kec0 call0 [0, 0, 5] [] [] [] 1)).ctxMem = []
    ∧ (getSha3Out (sha3Ops kec0 call0 [0, 0, 5] [] [] [] 1)).ops =
        [(RW.read, OpData.stack call0.callId (nthLastFilled [0, 0, 5] 0) 0),
         (RW.read, OpData.stack call0.callId (nthLastFilled [0, 0, 5] 1) 0),
         (RW.read, OpData.stack call0.callId (nthLastFilled [0, 0, 5] 2) 5)]
        ++ memoryWriteNOps call0.callId (low64 0) (List.ofFn (kec0 []))
    ∧ (memoryWriteNOps call0.callId (low64 0) (List.ofFn (kec0 []))).length = 32
    ∧ (∀ p ∈ (getSha3Out (sha3Ops kec0 call0 [0, 0, 5] [] [] [] 1)).ops,
        p.1 = RW.read → isMemOp p.2 = false)
    ∧ ∃ ev, (getSha3Out (sha3Ops kec0 call0 [0, 0, 5] [] [] [] 1)).copies = [ev]
        ∧ ev.bytes = [] :=
  sha3_size_zero_behaviour kec0 call0 0 5 [] [] [] [] 1
    (getSha3Out (sha3Ops kec0 call0 [0, 0, 5] [] [] [] 1)) rfl

/-! ## SSTORE handler (src/bus-mapping/src/wasm/opcodes/sstore.rs) -/

/-- The state-database view the SSTORE handler consults for the current
contract address (`state.sdb`): per-storage-key access-list warmth,
current and committed storage values, and the accumulated refund
counter. -/
structure SdbView where
  warm : Nat → Bool
  storageValue : Nat → Nat
  committedValue : Nat → Nat
  refund : Nat

/-- `Sstore::gen_associated_ops` (sstore.rs lines 20-122).  `stack` and
`gmem0` come from the pre-state step; `gmem1` is the lookahead step's
global memory — the handler reads the stored *value* from it (line 72)
while the key is read from the pre-state memory (line 74).
`stepRefund` is `geth_step.refund`.  On the error path (stack too
short) the five call-context reads already pushed by the source are
dropped here, as the block build aborts then. -/
def sstoreOps (call : CallInfo) (txId : Nat) (stack : List Nat)
    (gmem0 gmem1 : List Byte) (sdb : SdbView) (stepRefund : Nat) :
    Except Err (List (RW × OpData)) := do
  let valueOffset ← nthLast stack 0
  let keyOffset ← nthLast stack 1
  let value := readU256 gmem1 valueOffset
  let valueBytes := beBytes32 value
  let key := readU256 gmem0 keyOffset
  let keyBytes := beBytes32 key
  let isWarm := sdb.warm key
  .ok (
    [(RW.read, OpData.callContext call.callId .TxId txId),
     (RW.read, OpData.callContext call.callId .IsStatic call.isStatic.toNat),
     (RW.read, OpData.callContext call.callId .RwCounterEndOfReversion
        call.rwCounterEndOfReversion),
     (RW.read, OpData.callContext call.callId .IsPersistent call.isPersistent.toNat),
     (RW.read, OpData.callContext call.callId .CalleeAddress call.address),
     (RW.read, OpData.stack call.callId (nthLastFilled stack 0) valueOffset),
     (RW.read, OpData.stack call.callId (nthLastFilled stack 1) keyOffset),
     (RW.write, OpData.storage call.address key value (sdb.storageValue key) txId
        (sdb.committedValue key)),
     (RW.write, OpData.txAccessListAccountStorage txId call.address key true isWarm),
     (RW.write, OpData.txRefund txId stepRefund sdb.refund)]
    ++ memoryReadNOps call.callId (low64 keyOffset) keyBytes
    ++ memoryReadNOps call.callId (low64 valueOffset) valueBytes)

/-- Evaluation of the SSTORE handler on a stack with at least two
entries: the handler body is straight-line, so this is definitional. -/
theorem sstoreOps_run (call : CallInfo) (txId vOff kOff : Nat) (rest : List Nat)
    (gmem0 gmem1 : List Byte) (sdb : SdbView) (stepRefund : Nat) :
    sstoreOps call txId (vOff :: kOff :: rest) gmem0 gmem1 sdb stepRefund =
      .ok (
        [(RW.read, OpData.callContext call.callId .TxId txId),
         (RW.read, OpData.callContext call.callId .IsStatic call.isStatic.toNat),
         (RW.read, OpData.callContext call.callId .RwCounterEndOfReversion
            call.rwCounterEndOfReversion),
         (RW.read, OpData.callContext call.callId .IsPersistent
            call.isPersistent.toNat),
         (RW.read, OpData.callContext call.callId .CalleeAddress call.address),
         (RW.read, OpData.stack call.callId
            (nthLastFilled (vOff :: kOff :: rest) 0) vOff),
         (RW.read, OpData.stack call.callId
            (nthLastFilled (vOff :: kOff :: rest) 1) kOff),
         (RW.write, OpData.storage call.address (readU256 gmem0 kOff)
            (readU256 gmem1 vOff) (sdb.storageValue (readU256 gmem0 kOff)) txId
            (sdb.committedValue (readU256 gmem0 kOff))),
         (RW.write, OpData.txAccessListAccountStorage txId call.address
            (readU256 gmem0 kOff) true (sdb.warm (readU256 gmem0 kOff))),
         (RW.write, OpData.txRefund txId stepRefund sdb.refund)]
        ++ memoryReadNOps call.callId (low64 kOff)
            (beBytes32 (readU256 gmem0 kOff))
        ++ memoryReadNOps call.callId (low64 vOff)
            (beBytes32 (readU256 gmem1 vOff))) := rfl

/-- Classification of an operation as the SSTORE specification lists
them. -/
inductive OpTag where
  | ccRead (f : CallContextField)
  | stackRead
  | storageWrite
  | accessListStorageWrite (isWarm : Bool) (isWarmPrev : Bool)
  | refundWrite
  | memRead
  | other
deriving DecidableEq

/-- Tag of one pushed operation. -/
def opTag : RW × OpData → OpTag
  | (RW.read, OpData.callContext _ f _) => .ccRead f
  | (RW.read, OpData.stack _ _ _) => .stackRead
  | (RW.write, OpData.storage _ _ _ _ _ _) => .storageWrite
  | (RW.write, OpData.txAccessListAccountStorage _ _ _ w wp) =>
      .accessListStorageWrite w wp
  | (RW.write, OpData.txRefund _ _ _) => .refundWrite
  | (RW.read, OpData.memory _ _ _) => .memRead
  | _ => .other

theorem memoryReadNOps_map_opTag (c a : Nat) (bs : List Byte) :
    (memoryReadNOps c a bs).map opTag = List.replicate bs.length OpTag.memRead := by
  induction bs generalizing a with
  | nil => rfl
  | cons b t ih => simp [memoryReadNOps, opTag, ih, List.replicate_succ]

theorem beBytes32_length (v : Nat) : (beBytes32 v).length = 32 := by
  simp [beBytes32]

/-- A concrete state-database view: everything cold, zero values. -/
def sdb0 : SdbView := ⟨fun _ => false, fun _ => 0, fun _ => 0, 0⟩

/-- Extract the operation list of an SSTORE handler run, defaulting on
error. -/
def getOps (r : Except Err (List (RW × OpData))) : List (RW × OpData) :=
  match r with
  | .ok l => l
  | .error _ => []

/-- **C3** (counterexample).  At a concrete cold SSTORE invocation the
handler records 74 operations, not the 69 the claim states: the
itemized sequence (5 call-context reads + 2 stack reads + 3 reversible
writes + 2×32 memory read-backs) sums to 74. -/
theorem sstore_op_count_cex :
    Except.map List.length (sstoreOps call0 1 [32, 0] [] [] sdb0 0) = .ok 74
    ∧ (74 : Nat) ≠ 69 := by
  constructor
  · decide
  · decide

/-- **C3** (amended).  For every ExecStep produced by the SSTORE
handler on a cold storage slot, the recorded operations are, in order:
5 call-context reads (TxId, IsStatic, RwCounterEndOfReversion,
IsPersistent, CalleeAddress), 2 stack reads (value-addr then
key-addr), 1 reversible storage write, 1 reversible access-list warm
write (cold → warm), 1 reversible refund write, then 2×32 memory
read-backs of the key and value bytes — and the total length equals
74. -/
theorem sstore_cold_op_sequence (call : CallInfo) (txId vOff kOff : Nat)
    (rest : List Nat) (gmem0 gmem1 : List Byte) (sdb : SdbView)
    (stepRefund : Nat) (ops : List (RW × OpData))
    (hrun : sstoreOps call txId (vOff :: kOff :: rest) gmem0 gmem1 sdb stepRefund =
      .ok ops)
    (hcold : sdb.warm (readU256 gmem0 kOff) = false) :
    ops.map opTag =
      [.ccRead .TxId, .ccRead .IsStatic, .ccRead .RwCounterEndOfReversion,
       .ccRead .IsPersistent, .ccRead .CalleeAddress,
       .stackRead, .stackRead, .storageWrite,
       .accessListStorageWrite true false, .refundWrite]
      ++ List.replicate 64 OpTag.memRead
    ∧ ops.length = 74 := by
  rw [sstoreOps_run] at hrun
  injection hrun with hops
  subst hops
  constructor
  · simp only [List.map_append, memoryReadNOps_map_opTag, beBytes32_length,
      List.map_cons, List.map_nil, opTag, hcold]
    rw [List.append_assoc, ← List.replicate_add]
  · simp only [List.length_append, memoryReadNOps_length, beBytes32_length,
      List.length_cons, List.length_nil]

/-- Witness for the amended C3 theorem at a concrete cold SSTORE. -/
theorem sstore_cold_op_sequence_witness :
    (getOps (sstoreOps call0 1 [32, 0] [] [] sdb0 0)).map opTag =
      [.ccRead .TxId, .ccRead .IsStatic, .ccRead .RwCounterEndOfReversion,
       .ccRead .IsPersistent, .ccRead .CalleeAddress,
       .stackRead, .stackRead, .storageWrite,
       .accessListStorageWrite true false, .refundWrite]
      ++ List.replicate 64 OpTag.memRead
    ∧ (getOps (sstoreOps call0 1 [32, 0] [] [] sdb0 0)).length = 74 :=
  sstore_cold_op_sequence call0 1 32 0 [] [] [] sdb0 0
    (getOps (sstoreOps call0 1 [32, 0] [] [] sdb0 0)) rfl (by decide)

/-- **C2** (counterexample).  Two SSTORE handler runs that differ only
in the lookahead step's memory contents record different operations:
the stored value the handler witnesses is read from the lookahead
memory, not recomputed from state the builder owns. -/
theorem handler_lookahead_independence_cex :
    sstoreOps call0 1 [0, 0] [] [byteOfNat 1] sdb0 0 ≠
      sstoreOps call0 1 [0, 0] [] [byteOfNat 2] sdb0 0 := by
  decide

/-! ## CALLDATALOAD handler
(src/bus-mapping/src/wasm/opcodes/calldataload.rs) -/

/-- `Calldataload::gen_associated_ops` (calldataload.rs lines 17-119).
`chunk` is `geth_steps[1].memory[0].0`, the first memory region of the
lookahead step, whose bytes the handler writes to memory verbatim — the
handler never reads the transaction's call data itself.  `gmem1` is the
lookahead step's global memory, installed as the call context's memory
at the end.  Returns the pushed operations and the new context
memory. -/
def calldataloadOps (call : CallInfo) (txId : Nat) (stack : List Nat)
    (chunk : List Byte) (gmem1 : List Byte) :
    Except Err (List (RW × OpData) × List Byte) := do
  if chunk.length ≠ 32 then
    .error (.invalidGethExecTrace
      "there is no calldata bytes in memory for calldataload opcode")
  else do
    let offset ← nthLast stack 1
    let ccReads : List (RW × OpData) :=
      if call.isRoot then
        [(RW.read, OpData.callContext call.callId .TxId txId),
         (RW.read, OpData.callContext call.callId .CallDataLength
            call.callDataLength)]
      else
        [(RW.read, OpData.callContext call.callId .CallerId call.callerId),
         (RW.read, OpData.callContext call.callId .CallDataLength
            call.callDataLength),
         (RW.read, OpData.callContext call.callId .CallDataOffset
            call.callDataOffset)]
    let destOffset ← nthLast stack 0
    let offsetAddr ← memAddrTryFrom destOffset
    .ok (
      [(RW.read, OpData.stack call.callId (nthLastFilled stack 1) offset)]
      ++ ccReads
      ++ [(RW.read, OpData.stack call.callId (nthLastFilled stack 0) destOffset)]
      ++ memoryWriteNOps call.callId offsetAddr chunk,
      gmem1)

/-! ## EXTCODESIZE handler
(src/bus-mapping/src/evm/opcodes/extcodesize.rs) -/

/-- `Extcodesize::gen_associated_ops` (extcodesize.rs lines 13-105).
`lookMem` is `geth_steps[1].memory.0`, the lookahead step's memory; the
handler writes its first 4 bytes as the code-size result with **no
length validation** — `codesize_bytes[i]` (line 98) is an out-of-bounds
slice index, i.e. a Rust panic, when fewer than 4 bytes are present.
The access-list / code-hash logic of the canonical contract is
commented out in the source (`TODO recover code`, lines 44-88) and so
absent here.  Both stack reads target the top of the stack
(`stack.last()` at line 25 and `stack.nth_last(0)` at line 91). -/
def extcodesizeOps (call : CallInfo) (txId : Nat) (stack : List Nat)
    (lookMem : List Byte) :
    Except Err (List (RW × OpData) × List Byte) := do
  let addressMemAddress ← nthLast stack 0
  let destOffset ← nthLast stack 0
  let offsetAddr ← memAddrTryFrom destOffset
  if 4 ≤ lookMem.length then
    .ok (
      [(RW.read, OpData.stack call.callId (nthLastFilled stack 0)
          addressMemAddress),
       (RW.read, OpData.callContext call.callId .TxId txId),
       (RW.read, OpData.callContext call.callId .RwCounterEndOfReversion
          call.rwCounterEndOfReversion),
       (RW.read, OpData.callContext call.callId .IsPersistent
          call.isPersistent.toNat),
       (RW.read, OpData.stack call.callId (nthLastFilled stack 0) destOffset)]
      ++ memoryWriteNOps call.callId offsetAddr (lookMem.take 4),
      lookMem)
  else .error .rustPanic

/-- The bytes recorded by the memory-write operations of a handler, in
order. -/
def memWriteBytes (l : List (RW × OpData)) : List Byte :=
  l.filterMap fun p =>
    match p with
    | (RW.write, OpData.memory _ _ b) => some b
    | _ => none

/-- A concrete root call whose transaction carries the 2-byte call
data of the spec's Scenario C (`call_data_length = 2`). -/
def callRootD : CallInfo := ⟨1, 0, true, false, true, 0, 0, 2, 0⟩

/-- **C6** (evaluation at the failing input).  Root CALLDATALOAD with
call data [1, 2] and index operand 0: the handler memory-writes the 32
bytes of the lookahead step's first memory region verbatim — all zero
here, the very values the repository's own root test asserts — and not
the claimed 0x01, 0x02 followed by 30 zero bytes.  The call data never
enters the computation of the written bytes. -/
theorem calldataload_root_scenario_c_eval :
    Except.map (fun p => memWriteBytes p.1)
      (calldataloadOps callRootD 1 [127, 0] (List.replicate 32 0) [])
      = .ok (List.replicate 32 (0 : Byte))
    ∧ List.replicate 32 (0 : Byte) ≠
        [byteOfNat 1, byteOfNat 2] ++ List.replicate 30 (0 : Byte) := by
  constructor
  · decide
  · decide

/-- Is this error the MalformedTrace class the claim names
(`InvalidGethExecTrace`)? -/
def isMalformedTraceErr : Err → Bool
  | .invalidGethExecTrace _ => true
  | _ => false

/-- **C8** (counterexample).  EXTCODESIZE with a lookahead memory of
fewer than 4 bytes does not return a MalformedTrace-class error: it
panics (out-of-bounds slice indexing at extcodesize.rs line 98). -/
theorem extcodesize_short_lookahead_panics_cex :
    extcodesizeOps call0 1 [127] [] = .error Err.rustPanic
    ∧ isMalformedTraceErr Err.rustPanic = false := by
  constructor
  · decide
  · decide

/-- **C8** (amended).  The CALLDATALOAD handler validates the lookahead
chunk and fails with the fatal `InvalidGethExecTrace` error when the
32-byte calldata chunk is missing from memory region 0, producing no
operations; the EXTCODESIZE handler performs no such validation and
panics via out-of-bounds slice indexing when the lookahead memory holds
fewer than 4 bytes. -/
theorem lookahead_validation_behaviour :
    (∀ (call : CallInfo) (txId : Nat) (stack : List Nat)
        (chunk gmem1 : List Byte), chunk.length ≠ 32 →
      calldataloadOps call txId stack chunk gmem1 =
        .error (.invalidGethExecTrace
          "there is no calldata bytes in memory for calldataload opcode"))
    ∧ (∀ (call : CallInfo) (txId a : Nat) (rest : List Nat)
        (lookMem : List Byte), a < 2 ^ 64 → lookMem.length < 4 →
      extcodesizeOps call txId (a :: rest) lookMem = .error .rustPanic) := by
  constructor
  · intro call txId stack chunk gmem1 h
    simp only [calldataloadOps, if_pos h]
  · intro call txId a rest lookMem ha hlen
    simp only [extcodesizeOps, nthLast_cons_zero, ok_bind, memAddrTryFrom,
      if_pos ha, if_neg (by omega : ¬ 4 ≤ lookMem.length)]

/-- Witness for the amended C8 theorem at concrete inputs. -/
theorem lookahead_validation_behaviour_witness :
    calldataloadOps call0 1 [0] [] [] =
      .error (.invalidGethExecTrace
        "there is no calldata bytes in memory for calldataload opcode")
    ∧ extcodesizeOps call0 1 [0] [] = .error .rustPanic :=
  ⟨lookahead_validation_behaviour.1 call0 1 [0] [] [] (by decide),
   lookahead_validation_behaviour.2 call0 1 0 [] [] (by decide) (by decide)⟩

/-- **C2** (amended).  The lookahead-independence the claim states
holds for the SHA3 handler: its only use of the lookahead step's memory
is the `expected_sha3` debug cross-check, so two runs that differ only
in the lookahead memory record identical operations, copy events and
context memory.  (It fails for SSTORE, CALLDATALOAD and EXTCODESIZE,
which take recorded values from the lookahead memory; see the
counterexample.) -/
theorem sha3_lookahead_cross_check_only (keccak : List Byte → Fin 32 → Byte)
    (call : CallInfo) (stack : List Nat) (gmem0 g1 g1' ctxMem : List Byte)
    (rwc0 : Nat) :
    sha3Ops keccak call stack gmem0 g1 ctxMem rwc0 =
      sha3Ops keccak call stack gmem0 g1' ctxMem rwc0 := rfl

/-! ## Reversion engine (modelled from the spec)

The reversion engine lives in `circuit_input_builder.rs`, which is not
among the provided sources; the SSTORE handler above is its caller
(`push_op_reversible`, sstore.rs lines 86-116). -/

/-- Modelled from the spec: one pending call frame of the reversion
engine (spec sections 4.2 and 9): its persistence flag, its
`rw_counter_end_of_reversion` fixed at open time, and the reversible
writes `push_op_reversible` queued against it, in creation order. -/
structure Frame where
  isPersistent : Bool
  rwCounterEndOfReversion : Nat
  queued : List OpData

/-- Modelled from the spec: the undo operation of one reversible write
(spec section 4.2): same key with `value`/`value_prev` swapped for the
underlying value writes (storage slots, refund counter); per the
Terminal clause of section 4.2 and section 4.4, access-list warmth
transitions are never undone on revert, so access-list writes
contribute no undo operation. -/
def undoOf : OpData → Option OpData
  | OpData.storage a k v vp tx c => some (OpData.storage a k vp v tx c)
  | OpData.txRefund tx v vp => some (OpData.txRefund tx vp v)
  | _ => none

/-- Modelled from the spec: when a frame with `is_persistent = false`
completes, its undo operations are materialized in LIFO order (spec
sections 4.2 and 9); a persistent frame materializes none. -/
def materializeUndos (f : Frame) : List OpData :=
  if f.isPersistent then [] else f.queued.reverse.filterMap undoOf

/-- Does an operation payload set an access-list warmth flag to
false? -/
def setsWarmFalse : OpData → Bool
  | OpData.txAccessListAccount _ _ w _ => !w
  | OpData.txAccessListAccountStorage _ _ _ w _ => !w
  | _ => false

/-- **C5.** For every call frame that reverts, the access-list warmth
transition is never undone: no undo operation materialized by the
reversion engine sets `is_warm` back to false for any (tx, address) or
(tx, address, storage_key) entry — only the underlying value writes
are reversed. -/
theorem revert_never_undoes_warmth (f : Frame) :
    ∀ op ∈ materializeUndos f, setsWarmFalse op = false := by
  intro op hop
  rw [materializeUndos] at hop
  by_cases hp : f.isPersistent
  · rw [if_pos hp] at hop
    exact absurd hop (List.not_mem_nil op)
  · rw [if_neg hp] at hop
    rw [List.mem_filterMap] at hop
    obtain ⟨src, _, hsrc⟩ := hop
    cases src <;> simp only [undoOf, Option.some.injEq,
      reduceCtorEq] at hsrc <;> rw [← hsrc] <;> rfl

/-- Witness for the C5 theorem: a concrete reverting frame whose
queued storage write materializes a (swapped) storage undo. -/
theorem revert_never_undoes_warmth_witness :
    setsWarmFalse (OpData.storage 5 1 7 9 1 7) = false :=
  revert_never_undoes_warmth ⟨false, 0, [OpData.storage 5 1 9 7 1 7]⟩
    (OpData.storage 5 1 7 9 1 7) (by decide)

end Wasm0
